import Mathlib

/-!
Shallow embedding of the TFSegmentUtils batch-generation core
(`datasource.py`) and of the augmentation-stage wrapper (`augments.py`),
with theorems settling the specification claims about them.

Conventions used throughout:
* a "record tuple" (one row of a batch, one element per backing array) is a
  single value of an abstract type `α`;
* a batch buffer (numpy array reused across iterations, written row by row)
  is a function `Nat → α` from row index to row content, written with
  `Function.update`;
* Python float probabilities are rationals `ℚ`;
* the single random draw `trainutils.randChoice(prob)` of a stage invocation
  is an explicit boolean argument `coin` (its result), so the embedded stage
  is a deterministic function of the drawn randomness.
-/

namespace TFSeg

/-! ### augments.py: the `augment` decorator

`augment(prob, applyIndices)` wraps a transform-builder `func`.  The wrapper
`_func(*args, **kwargs)`:
* pops `prob`; if `_prob < 1.0 and not trainutils.randChoice(_prob)` it
  returns `args` unchanged (one coin flip for the whole invocation);
* otherwise builds `op = func(*args)` once, computes
  `indices = list(_applyIndices or range(len(args)))` (note: Python `or`
  falls back to `range(len(args))` when `_applyIndices` is `None` *or* an
  empty list), and returns
  `tuple(op(im) if i in indices else im for i, im in enumerate(args))`.

Here `op : α → α` is the single transform instance built by `func` for this
invocation and `coin` is the result of the single `randChoice(_prob)` draw. -/

/-- `list(_applyIndices or range(len(args)))`: Python `or` falls back to the
full range both when `_applyIndices` is `None` and when it is an empty
(falsy) list. -/
def effectiveIndices (applyIndices : Option (List Nat)) (numArgs : Nat) : List Nat :=
  match applyIndices with
  | none => List.range numArgs
  | some l => if l = [] then List.range numArgs else l

def augmentApply (prob : ℚ) (applyIndices : Option (List Nat)) (coin : Bool)
    (op : α → α) (args : List α) : List α :=
  if prob < 1 ∧ coin = false then args
  else
    args.enum.map fun p =>
      if p.1 ∈ effectiveIndices applyIndices args.length then op p.2 else p.2

/-! ### datasource.py: the augmentation pass and the row-index partition

`DataSource.getAugmentedArrays` folds the pipeline stages over one record
tuple; `DataSource.applyAugments(arrays, augArrays, indices)` runs, for each
`i` in `indices`, the pipeline on row `i` of the (unchanging) input batch
and writes the result into row `i` of the output buffer.  The thread and
process strategies split `np.arange(batchSize)` into
`numThreads = min(batchSize, ...)` chunks with `np.array_split`, while the
inline strategy passes `list(range(batchSize))` directly. -/

def getAugmentedArrays (augments : List (α → α)) (arrays : α) : α :=
  augments.foldl (fun a f => f a) arrays

def applyAugments (augments : List (α → α)) (arrays : Nat → α)
    (augArrays : Nat → α) (indices : List Nat) : Nat → α :=
  indices.foldl
    (fun augs i => Function.update augs i (getAugmentedArrays augments (arrays i)))
    augArrays

/-- Chunk sizes of `np.array_split(np.arange(n), k)`: the first `n % k`
chunks have `n / k + 1` elements, the rest have `n / k`. -/
def splitSizes (n k : Nat) : List Nat :=
  (List.range k).map fun j => if j < n % k then n / k + 1 else n / k

/-- Consecutive index chunks with the given sizes, starting at `start`. -/
def chunkRanges (sizes : List Nat) (start : Nat) : List (List Nat) :=
  match sizes with
  | [] => []
  | s :: rest => (List.range s).map (· + start) :: chunkRanges rest (start + s)

/-- `np.array_split(np.arange(n), k)`: `k` consecutive, disjoint chunks
covering `0, ..., n-1`. -/
def arraySplit (n k : Nat) : List (List Nat) :=
  chunkRanges (splitSizes n k) 0

theorem applyAugments_append (augments : List (α → α)) (arrays : Nat → α)
    (augArrays : Nat → α) (l₁ l₂ : List Nat) :
    applyAugments augments arrays augArrays (l₁ ++ l₂)
      = applyAugments augments arrays (applyAugments augments arrays augArrays l₁) l₂ := by
  simp [applyAugments, List.foldl_append]

theorem chunkRanges_join (sizes : List Nat) (start : Nat) :
    (chunkRanges sizes start).flatten = (List.range sizes.sum).map (· + start) := by
  induction sizes generalizing start with
  | nil => simp [chunkRanges]
  | cons s rest ih =>
    simp only [chunkRanges, List.flatten_cons, List.sum_cons, ih]
    rw [List.range_add, List.map_append, List.map_map]
    congr 1
    refine List.map_congr_left fun a _ => ?_
    simp only [Function.comp_apply]
    omega

theorem sum_splitSizes_aux (q r : Nat) (m : Nat) :
    ((List.range m).map fun j => if j < r then q + 1 else q).sum
      = q * m + min m r := by
  induction m with
  | zero => simp
  | succ m ih =>
    rw [List.range_succ, List.map_append, List.sum_append]
    simp only [List.map_cons, List.map_nil, List.sum_cons, List.sum_nil, ih]
    by_cases h : m < r
    · simp only [if_pos h, Nat.mul_succ]
      omega
    · simp only [if_neg h, Nat.mul_succ]
      omega

theorem sum_splitSizes (n k : Nat) (hk : 1 ≤ k) : (splitSizes n k).sum = n := by
  have hmod : n % k < k := Nat.mod_lt _ hk
  have hmin : min k (n % k) = n % k := by omega
  rw [splitSizes, sum_splitSizes_aux (n / k) (n % k) k, hmin, Nat.div_add_mod']

theorem arraySplit_join (n k : Nat) (hk : 1 ≤ k) :
    (arraySplit n k).flatten = List.range n := by
  rw [arraySplit, chunkRanges_join, sum_splitSizes n k hk]
  simp

theorem applyAugments_foldl_chunks (augments : List (α → α)) (arrays : Nat → α)
    (augArrays : Nat → α) (chunks : List (List Nat)) :
    chunks.foldl (fun b c => applyAugments augments arrays b c) augArrays
      = applyAugments augments arrays augArrays chunks.flatten := by
  induction chunks generalizing augArrays with
  | nil => simp [applyAugments]
  | cons c rest ih =>
    rw [List.flatten_cons, applyAugments_append, List.foldl_cons, ih]

/-- C4: for every batch size `n`, worker count `k ≥ 1` and deterministic
pipeline (each stage a fixed function `α → α`, i.e. forced to probability
1.0 with fixed randomness), applying the augmentation step chunk by chunk
over the `np.array_split` partition of row indices used by the thread-pool
and process-pool strategies writes, row for row, exactly the same output
buffer as one pass over `range(batchSize)`, which is what the inline
strategy (`localBatchGen._getBatch`) does. -/
theorem chunked_augmentation_eq_inline (augments : List (α → α))
    (batch : Nat → α) (augs : Nat → α) (n k : Nat) (hk : 1 ≤ k) :
    (arraySplit n k).foldl (fun b c => applyAugments augments batch b c) augs
      = applyAugments augments batch augs (List.range n) := by
  rw [applyAugments_foldl_chunks, arraySplit_join n k hk]

/-- Witness for C4 at batch size 5, two workers, one increment stage. -/
theorem chunked_augmentation_eq_inline_witness :
    (arraySplit 5 2).foldl
        (fun b c => applyAugments [fun x => x + 1] (fun i => i) b c) (fun _ => 0)
      = applyAugments [fun x => x + 1] (fun i => i) (fun _ => 0) (List.range 5) :=
  chunked_augmentation_eq_inline [fun x => x + 1] (fun i => i) (fun _ => 0) 5 2
    (by decide)

theorem effectiveIndices_of_ne_empty (applyIndices : Option (List Nat))
    (numArgs : Nat) (hne : applyIndices ≠ some []) :
    effectiveIndices applyIndices numArgs
      = applyIndices.getD (List.range numArgs) := by
  cases applyIndices with
  | none => rfl
  | some l =>
    have : l ≠ [] := fun h => hne (by rw [h])
    simp [effectiveIndices, this]

/-- C5 counterexample: the claim says that when the stage is applied,
exactly the targeted positions are replaced.  With the explicit target
index set `[]` (empty list) no position is targeted, so the claim demands
the tuple back unchanged; the code's `_applyIndices or range(len(args))`
treats the falsy empty list like `None` and applies the transform to every
position instead. -/
theorem augment_empty_target_counterexample :
    augmentApply 1 (some []) true Nat.succ [0, 0] = [1, 1] ∧
    augmentApply 1 (some []) true Nat.succ [0, 0] ≠ [0, 0] := by
  constructor
  · decide
  · decide

/-- C5 (amended): for every stage built by the `augment` decorator, with
any probability `p` and any target index set (given, empty, or absent),
one invocation either returns the argument tuple entirely unchanged —
exactly when `p < 1` and the single whole-invocation coin flip comes up
false, so never when `p = 1` — or returns a tuple of the same length in
which exactly the effective targeted positions are replaced by the one
transform instance `op` applied to them, every other position unchanged.
The effective targeted positions are the given target set when it is a
nonempty list, and *all* positions both when no set is given and when the
given set is the empty list — the amendment: the code's
`_applyIndices or range(len(args))` treats an explicitly empty target list
like "no set given", so it targets every position. -/
theorem augment_stage_contract (prob : ℚ) (applyIndices : Option (List Nat))
    (coin : Bool) (op : α → α) (args : List α) :
    (prob < 1 ∧ coin = false →
        augmentApply prob applyIndices coin op args = args) ∧
    (¬ (prob < 1 ∧ coin = false) →
        (augmentApply prob applyIndices coin op args).length = args.length ∧
        ∀ i, (hi : i < args.length) →
          (augmentApply prob applyIndices coin op args).get? i
            = some (if i ∈ effectiveIndices applyIndices args.length
                    then op (args.get ⟨i, hi⟩) else args.get ⟨i, hi⟩)) ∧
    effectiveIndices none args.length = List.range args.length ∧
    effectiveIndices (some []) args.length = List.range args.length ∧
    (∀ l : List Nat, l ≠ [] →
        effectiveIndices (some l) args.length = l) := by
  refine ⟨?_, ?_, rfl, ?_, fun l hl => by simp [effectiveIndices, hl]⟩
  · intro h
    rw [augmentApply, if_pos h]
  · intro h
    rw [augmentApply, if_neg h]
    refine ⟨by simp, fun i hi => ?_⟩
    rw [List.get?_map, List.get?_enum, List.get?_eq_get hi]
    rfl
  · simp [effectiveIndices]

/-- Witness for C5: probability 1, coin irrelevant, explicit empty target
list, increment stage on `[3, 4]` — the skip clause cannot fire and, per
the amendment, the empty target list targets both positions, so position 0
is replaced by `op 3 = 4`. -/
theorem augment_stage_contract_witness :
    (augmentApply (1 : ℚ) (some []) true Nat.succ [3, 4]).get? 0
      = some (if 0 ∈ effectiveIndices (some []) 2 then Nat.succ 3 else 3) :=
  ((augment_stage_contract (1 : ℚ) (some []) true Nat.succ [3, 4]).2.1
      (by simp)).2 0 (by decide)

/-! ### The Handoff Slot and the two pool producers

`threadBatchGen` and `processBatchGen` both publish into a capacity-1 queue
(`queue.Queue(1)` / `mp.Queue(1)`).  An item on that queue is either a
completed batch (a tuple of arrays) or — for the process strategy only —
the exception object caught by the producer's `try/except`. -/

inductive SlotItem (ε α : Type) where
  | batch : α → SlotItem ε α
  | failure : ε → SlotItem ε α
deriving DecidableEq

/-- One iteration of the worker write phase of `threadBatchGen._batchThread`
(lines 120-133).  The body has no `try/except`: an exception raised inside a
spawned worker thread (in `applyAugments`) kills only that worker thread —
`t.join()` still returns — and the loop goes on to publish a copy of the
output buffer with the failed rows left holding their previous contents.
`workerResult` is the outcome of the workers' augmentation pass:
`Except.ok newAugs` when no worker raised, `Except.error e` otherwise. -/
def threadProducerPublish (workerResult : Except ε α) (augsOld : α) :
    SlotItem ε α :=
  SlotItem.batch (match workerResult with
    | Except.ok a => a
    | Except.error _ => augsOld)

/-- The publication step of `processBatchGen._batchThread` (lines 166-185):
the whole producer body is wrapped in `try/except Exception`, and a caught
exception is put on the queue in place of a batch. -/
def procProducerPublish (workerResult : Except ε α) : SlotItem ε α :=
  match workerResult with
  | Except.ok a => SlotItem.batch a
  | Except.error e => SlotItem.failure e

/-- `processBatchGen._get` (lines 190-195): `v = batchQueue.get()`; if `v`
is not a tuple it is raised, otherwise returned. -/
def procPull (v : SlotItem ε α) : Except ε α :=
  match v with
  | SlotItem.batch a => Except.ok a
  | SlotItem.failure e => Except.error e

/-- `threadBatchGen` yields `batchQueue.get` itself: whatever sits in the
slot is handed to the consumer with no failure inspection. -/
def threadPullItem (v : SlotItem ε α) : SlotItem ε α := v

/-- C2 counterexample: a worker exception in the thread-pool strategy is
not delivered through the Handoff Slot as a tagged failure — the producer
publishes the stale output buffer as an ordinary batch — while the
process-pool strategy does tag it, so the two failure contracts differ. -/
theorem thread_worker_failure_not_tagged :
    threadProducerPublish (Except.error "boom" : Except String Nat) 7
        = SlotItem.batch 7 ∧
    threadProducerPublish (Except.error "boom" : Except String Nat) 7
        ≠ SlotItem.failure "boom" ∧
    procProducerPublish (Except.error "boom" : Except String Nat)
        = SlotItem.failure "boom" := by
  refine ⟨rfl, ?_, rfl⟩
  decide

/-- C2 (amended): in the thread-pool strategy a worker exception is *not*
caught and converted: no tagged failure ever reaches the Handoff Slot — the
producer publishes the output buffer (failed rows unchanged) as an ordinary
batch, so a subsequent pull cannot report the failure.  Only the
process-pool strategy catches worker exceptions, delivers them as tagged
failures, and re-raises them at `pull`. -/
theorem worker_failure_contracts (e : ε) (augsOld : α) (a : α) :
    threadProducerPublish (Except.error e) augsOld = SlotItem.batch augsOld ∧
    threadPullItem (threadProducerPublish (Except.error e) augsOld)
        = SlotItem.batch augsOld ∧
    procProducerPublish (Except.error e) = (SlotItem.failure e : SlotItem ε α) ∧
    procPull (procProducerPublish (Except.error e) : SlotItem ε α)
        = Except.error e ∧
    procPull (procProducerPublish (Except.ok a) : SlotItem ε α) = Except.ok a :=
  ⟨rfl, rfl, rfl, rfl, rfl⟩

/-! ### Release and the queue drain

`queue.Queue.get(block)` with `block = True` and no timeout waits until an
item is available — on an empty queue it waits forever and in particular
never raises `queue.Empty`; only `block = False` returns immediately with
`queue.Empty`.  The slot contents are `some v` (one item) or `none`
(empty). -/

inductive GetOutcome (α : Type) where
  | returned : α → GetOutcome α
  | raisedEmpty : GetOutcome α
  | blocksForever : GetOutcome α
deriving DecidableEq

def queueGet (block : Bool) (slot : Option α) : GetOutcome α :=
  match slot, block with
  | some v, _ => GetOutcome.returned v
  | none, true => GetOutcome.blocksForever
  | none, false => GetOutcome.raisedEmpty

inductive DrainResult where
  | completed : DrainResult
  | blockedForever : DrainResult
deriving DecidableEq

/-- The drain step of the shutdown paths of `threadBatchGen` (lines
143-146) and `processBatchGen` (lines 202-205): `batchQueue.get(True)`
inside `try ... except queue.Empty: pass`, run after `isRunning` has been
set to false.  The drain completes if the `get` returns an item or raises
`queue.Empty`; it leaves release stuck if the `get` waits forever. -/
def releaseDrainStep (slot : Option α) : DrainResult :=
  match queueGet true slot with
  | GetOutcome.returned _ => DrainResult.completed
  | GetOutcome.raisedEmpty => DrainResult.completed
  | GetOutcome.blocksForever => DrainResult.blockedForever

/-- C3: the drain in release passes `block = True` to `Queue.get`, so on an
empty Handoff Slot it waits forever — the `except queue.Empty` arm is
unreachable — whereas the non-blocking call the handler was written for
(`block = False`) would return immediately with `queue.Empty`.  With an
item in the slot the drain does complete. -/
theorem release_drain_blocks_on_empty :
    releaseDrainStep (none : Option Nat) = DrainResult.blockedForever ∧
    releaseDrainStep (some 0 : Option Nat) = DrainResult.completed ∧
    queueGet true (none : Option Nat) = GetOutcome.blocksForever ∧
    queueGet false (none : Option Nat) = GetOutcome.raisedEmpty :=
  ⟨rfl, rfl, rfl, rfl⟩

/-! ### One iteration of the process-pool producer loop (C1) -/

/-- One iteration of the producer loop of `processBatchGen._batchThread`
(lines 174-182): draw a fresh batch (`fresh` is its row map); overwrite the
shared input buffers in place (`for a, b in zip(inArrays, batch): a[...] = b`);
`if maugs:` dispatch the `np.array_split` chunks to the pool — every worker
runs `applyAugmentsProc`, the same per-row pass as `applyAugments`, reading
the shared inputs and writing the shared outputs — and this dispatch is
skipped entirely when the pipeline is empty; finally publish a defensive
copy of the output buffers (`tuple(a.copy() for a in augs)`).  The result is
the new input buffer, the new output buffer, and the published batch as the
list of its `batchSize` rows. -/
def procIteration (augments : List (α → α)) (batchSize numProcs : Nat)
    (fresh : Nat → α) (inArrays augs : Nat → α) :
    (Nat → α) × (Nat → α) × List α :=
  let inArrays2 := fresh
  let augs2 :=
    if augments.isEmpty then augs
    else
      (arraySplit batchSize numProcs).foldl
        (fun b c => applyAugments augments inArrays2 b c) augs
  (inArrays2, augs2, (List.range batchSize).map augs2)

/-- C1: with an empty augmentation pipeline the process-pool producer skips
the dispatch *and never writes the output buffers at all*, so the batch it
publishes is the stale contents of `augs` (the warm-up batch), not the
freshly drawn records it just wrote into the shared inputs.  Here the
warm-up output rows are `0`, the freshly drawn rows are `1`: the published
batch is `[0, 0]` where the claim demands `[1, 1]`.  With a nonempty
(identity-stage) pipeline the same iteration does publish the fresh
records, showing the staleness is specific to the skipped dispatch. -/
theorem process_empty_pipeline_publishes_stale :
    (procIteration ([] : List (Nat → Nat)) 2 1
        (fun _ => 1) (fun _ => 0) (fun _ => 0)).2.2 = [0, 0] ∧
    (List.range 2).map (fun _ => (1 : Nat)) = [1, 1] ∧
    ([0, 0] : List Nat) ≠ [1, 1] ∧
    (procIteration [fun x => x] 2 1
        (fun _ => (1 : Nat)) (fun _ => 0) (fun _ => 0)).2.2 = [1, 1] := by
  refine ⟨rfl, rfl, by decide, by decide⟩

/-! ### Shape-and-dtype semantics of the three pull paths (C6)

For the batch-shape claim each numpy array is tracked as its shape and
dtype.  `a[chosenInds]`, with `a` of shape `N :: rec`, has shape
`len(chosenInds) :: rec`; `a[0]` has shape `rec`;
`np.zeros((batchSize,) + s, d)` has shape `batchSize :: s` and dtype `d`;
`a.copy()`, `toShared` (`np.ctypeslib.as_ctypes` into a `RawArray`) and
`fromShared` (`np.ctypeslib.as_array`) all preserve shape and dtype, and
the in-place row writes of `applyAugments` never change the shape of the
pre-allocated buffer. -/

structure NDArray where
  shape : List Nat
  dtype : String
deriving DecidableEq

def indexSelect (a : NDArray) (count : Nat) : NDArray :=
  ⟨count :: a.shape.tail, a.dtype⟩

def firstRow (a : NDArray) : NDArray := ⟨a.shape.tail, a.dtype⟩

def zerosLike (batchSize : Nat) (a : NDArray) : NDArray :=
  ⟨batchSize :: a.shape, a.dtype⟩

def copyArr (a : NDArray) : NDArray := a

def toSharedArr (a : NDArray) : NDArray := a

def fromSharedArr (a : NDArray) : NDArray := a

/-- The Output Buffers allocated by `localBatchGen` (lines 94-97) with an
identity (empty) pipeline: `inArrays = self.getIndexBatch([0])`;
`augTest = self.getAugmentedArrays([a[0] for a in inArrays])`, the identity
for an empty pipeline; then
`augs = tuple(np.zeros((batchSize,)+a.shape, a.dtype) for a in augTest)`. -/
def localBatchAugs (arrays : List NDArray) (batchSize : Nat) : List NDArray :=
  let inArrays := arrays.map fun a => indexSelect a 1
  let augTest := inArrays.map firstRow
  augTest.map (zerosLike batchSize)

/-- Inline pull: `_getBatch` fills `augs` row by row in place and returns
it, so the arrays handed back are the allocated buffers themselves. -/
def localPullShapes (arrays : List NDArray) (batchSize : Nat) : List NDArray :=
  localBatchAugs arrays batchSize

/-- Thread-pool pull: the producer publishes
`tuple(a.copy() for a in augs)`. -/
def threadPullShapes (arrays : List NDArray) (batchSize : Nat) : List NDArray :=
  (localBatchAugs arrays batchSize).map copyArr

/-- Process-pool pull: `augs` go through `toShared`/`fromShared` once at
acquisition and the producer publishes copies of the mapped arrays. -/
def processPullShapes (arrays : List NDArray) (batchSize : Nat) : List NDArray :=
  ((localBatchAugs arrays batchSize).map fun a =>
      fromSharedArr (toSharedArr a)).map copyArr

/-- C6: for every record store whose backing arrays all have `N > 0`
records and every positive batch size, a pull from any of the three
strategies with an empty (identity) pipeline returns one array per backing
Record Array, of shape `(batchSize,)` followed by that record's shape
(`a.shape.tail`) and of that record's dtype. -/
theorem pull_batch_shapes (arrays : List NDArray) (batchSize N : Nat)
    (hb : 0 < batchSize) (hN : 0 < N)
    (hsh : ∀ a ∈ arrays, ∃ rec, a.shape = N :: rec) :
    localPullShapes arrays batchSize
        = arrays.map (fun a => ⟨batchSize :: a.shape.tail, a.dtype⟩) ∧
    threadPullShapes arrays batchSize
        = arrays.map (fun a => ⟨batchSize :: a.shape.tail, a.dtype⟩) ∧
    processPullShapes arrays batchSize
        = arrays.map (fun a => ⟨batchSize :: a.shape.tail, a.dtype⟩) := by
  refine ⟨?_, ?_, ?_⟩ <;>
    simp [localPullShapes, threadPullShapes, processPullShapes, localBatchAugs,
      indexSelect, firstRow, zerosLike, copyArr, toSharedArr, fromSharedArr,
      List.map_map, Function.comp]

/-- Witness for C6 at the repository's own end-to-end configuration: two
arrays of 10 records with record shapes `(1,16,16)` and `(2,)`, batch size
4. -/
theorem pull_batch_shapes_witness :
    localPullShapes
        ([⟨[10, 1, 16, 16], "float64"⟩, ⟨[10, 2], "float64"⟩] : List NDArray) 4
      = List.map (fun a => ⟨4 :: a.shape.tail, a.dtype⟩)
          ([⟨[10, 1, 16, 16], "float64"⟩, ⟨[10, 2], "float64"⟩] : List NDArray) :=
  (pull_batch_shapes _ 4 10 (by decide) (by decide)
      (by
        intro a ha
        fin_cases ha
        · exact ⟨[1, 16, 16], rfl⟩
        · exact ⟨[2], rfl⟩)).1

/-! ### The file-backed store's byte-bounded cache (C7, C10)

`FileDataSource` keeps `imageCache` (a Python dict, which preserves
insertion order), `currentSize` and `maxSize`.  Only a cached image's byte
count (`im.nbytes`, a `Nat`) matters to these claims, so the cache is the
insertion-ordered association list of `(path, nbytes)` pairs;
`currentSize` and `maxSize` are integers as in Python. -/

structure FileCache where
  imageCache : List (String × Nat)
  currentSize : Int
  maxSize : Int
deriving DecidableEq

def cacheBytes (cache : List (String × Nat)) : Nat :=
  (cache.map Prod.snd).sum

/-- `FileDataSource._getCachedFile` (lines 295-301): on a miss, load the
image (`loadSize path` is its `nbytes`), add its size to `currentSize` and
insert it at the end of the (insertion-ordered) cache; on a hit the state
is unchanged. -/
def getCachedFile (loadSize : String → Nat) (s : FileCache) (path : String) :
    FileCache :=
  if (s.imageCache.map Prod.fst).contains path then s
  else
    { s with
      imageCache := s.imageCache ++ [(path, loadSize path)]
      currentSize := s.currentSize + loadSize path }

/-- The `while` loop of `FileDataSource._removeFiles` (lines 307-312):
`candidates = list(self.imageCache)` is the keys in insertion order; while
candidates remain and `currentSize > maxSize`, pop the front candidate,
subtract its `nbytes` and delete it from the cache. -/
def evictLoop : List (String × Nat) → Int → Int → List (String × Nat) × Int
  | [], size, _ => ([], size)
  | (p, nb) :: rest, size, maxSize =>
    if maxSize < size then evictLoop rest (size - nb) maxSize
    else ((p, nb) :: rest, size)

/-- `FileDataSource._removeFiles` (lines 303-312): a non-positive budget
disables eviction entirely; otherwise run the eviction loop. -/
def removeFiles (s : FileCache) : FileCache :=
  if s.maxSize ≤ 0 then s
  else
    let r := evictLoop s.imageCache s.currentSize s.maxSize
    { s with imageCache := r.1, currentSize := r.2 }

/-- The cache-accounting invariant: `currentSize` equals the total bytes of
the images presently cached. -/
def sizeInv (s : FileCache) : Prop :=
  s.currentSize = (cacheBytes s.imageCache : Int)

instance (s : FileCache) : Decidable (sizeInv s) := by
  unfold sizeInv; infer_instance

theorem cacheBytes_cons (p : String × Nat) (rest : List (String × Nat)) :
    cacheBytes (p :: rest) = p.2 + cacheBytes rest := by
  simp [cacheBytes]

theorem evictLoop_eq_drop (cache : List (String × Nat)) (maxSize : Int) :
    ∀ size : Int, size = (cacheBytes cache : Int) →
    ∃ k, evictLoop cache size maxSize
          = (cache.drop k, (cacheBytes (cache.drop k) : Int)) ∧
        ∀ j < k, maxSize < (cacheBytes (cache.drop j) : Int) := by
  induction cache with
  | nil =>
    intro size hs
    refine ⟨0, ?_, by omega⟩
    simp [evictLoop, hs]
  | cons hd rest ih =>
    intro size hs
    obtain ⟨p, nb⟩ := hd
    by_cases hgt : maxSize < size
    · have hs' : size - nb = (cacheBytes rest : Int) := by
        rw [hs, cacheBytes_cons]; push_cast; ring
      obtain ⟨k, hk, hmin⟩ := ih (size - nb) hs'
      refine ⟨k + 1, ?_, ?_⟩
      · simpa [evictLoop, if_pos hgt] using hk
      · intro j hj
        cases j with
        | zero => simpa [← hs] using hgt
        | succ j' =>
          have := hmin j' (by omega)
          simpa using this
    · subst hs
      refine ⟨0, ?_, by omega⟩
      simp only [evictLoop, if_neg hgt, List.drop_zero]

/-- C10: both loading a file into the cache and running eviction preserve
the invariant that the recorded `currentSize` equals the sum of the byte
sizes of all presently cached images. -/
theorem cache_size_invariant (loadSize : String → Nat) (s : FileCache)
    (path : String) (hinv : sizeInv s) :
    sizeInv (getCachedFile loadSize s path) ∧ sizeInv (removeFiles s) := by
  constructor
  · rw [getCachedFile]
    by_cases hmem : (s.imageCache.map Prod.fst).contains path
    · rwa [if_pos hmem]
    · rw [if_neg hmem]
      simp only [sizeInv, cacheBytes, List.map_append, List.sum_append] at *
      push_cast
      simp [hinv]
  · rw [removeFiles]
    by_cases hle : s.maxSize ≤ 0
    · rwa [if_pos hle]
    · rw [if_neg hle]
      obtain ⟨k, hk, -⟩ := evictLoop_eq_drop s.imageCache s.maxSize s.currentSize hinv
      simp [sizeInv, hk]

/-- Witness for C10: a two-entry cache satisfying the invariant; a miss
insert and an eviction both preserve it. -/
theorem cache_size_invariant_witness :
    sizeInv (getCachedFile (fun _ => 4)
        ⟨[("a", 5), ("b", 3)], 8, 6⟩ "c") ∧
    sizeInv (removeFiles ⟨[("a", 5), ("b", 3)], 8, 6⟩) :=
  cache_size_invariant (fun _ => 4) ⟨[("a", 5), ("b", 3)], 8, 6⟩ "c"
    (by decide)

theorem evictLoop_le_or_empty (cache : List (String × Nat)) (maxSize : Int) :
    ∀ size : Int, (evictLoop cache size maxSize).2 ≤ maxSize ∨
      (evictLoop cache size maxSize).1 = [] := by
  induction cache with
  | nil =>
    intro size
    right
    simp [evictLoop]
  | cons hd rest ih =>
    intro size
    obtain ⟨p, nb⟩ := hd
    by_cases hgt : maxSize < size
    · simpa [evictLoop, if_pos hgt] using ih (size - nb)
    · left
      simp only [evictLoop, if_neg hgt]
      omega

/-- C7: with a positive byte budget and correct accounting, eviction
removes cached files strictly in insertion order — the surviving cache is
`drop k` of the insertion-ordered cache for some `k` — stopping as soon as
the total drops to the budget (every strictly earlier stopping point still
exceeded it), and afterwards the total cached bytes are at most the budget
(the cache can always be reduced that far, emptying it if need be). -/
theorem eviction_fifo_and_bounded (s : FileCache) (hm : 0 < s.maxSize)
    (hinv : sizeInv s) :
    (removeFiles s).currentSize ≤ s.maxSize ∧
    ∃ k, (removeFiles s).imageCache = s.imageCache.drop k ∧
      (removeFiles s).currentSize = (cacheBytes (s.imageCache.drop k) : Int) ∧
      ∀ j < k, s.maxSize < (cacheBytes (s.imageCache.drop j) : Int) := by
  obtain ⟨k, hk, hmin⟩ := evictLoop_eq_drop s.imageCache s.maxSize s.currentSize hinv
  have hrw : removeFiles s
      = { s with imageCache := s.imageCache.drop k,
                 currentSize := (cacheBytes (s.imageCache.drop k) : Int) } := by
    rw [removeFiles, if_neg (by omega), hk]
  refine ⟨?_, k, by rw [hrw], by rw [hrw], hmin⟩
  rw [hrw]
  rcases evictLoop_le_or_empty s.imageCache s.maxSize s.currentSize with hle | hempty
  · rw [hk] at hle
    exact hle
  · rw [hk] at hempty
    simp only at hempty
    simp only [hempty, cacheBytes, List.map_nil, List.sum_nil, Nat.cast_zero]
    omega

/-- Witness for C7: cache `a → b → c` of 5, 3 and 2 bytes, total 10, budget
4: the oldest two entries are evicted, the survivor is `c` with 2 bytes. -/
theorem eviction_fifo_and_bounded_witness :
    (removeFiles ⟨[("a", 5), ("b", 3), ("c", 2)], 10, 4⟩).currentSize ≤
        (⟨[("a", 5), ("b", 3), ("c", 2)], 10, 4⟩ : FileCache).maxSize ∧
    ∃ k, (removeFiles ⟨[("a", 5), ("b", 3), ("c", 2)], 10, 4⟩).imageCache
          = ([("a", 5), ("b", 3), ("c", 2)] : List (String × Nat)).drop k ∧
      (removeFiles ⟨[("a", 5), ("b", 3), ("c", 2)], 10, 4⟩).currentSize
          = (cacheBytes (([("a", 5), ("b", 3), ("c", 2)] :
              List (String × Nat)).drop k) : Int) ∧
      ∀ j < k, (4 : Int) <
        (cacheBytes (([("a", 5), ("b", 3), ("c", 2)] :
            List (String × Nat)).drop j) : Int) :=
  eviction_fifo_and_bounded ⟨[("a", 5), ("b", 3), ("c", 2)], 10, 4⟩
    (by decide) (by decide)


/-! ### The buffering store's append (C8)

`BufferDataSource.appendBuffer(self, *arrays)` (lines 224-233).  Each
backing array is a list of records; the store is the list of its backing
arrays.  The result either holds the final arrays (`ok`) or the arrays at
the moment an `IndexError` was raised (`indexError`). -/

inductive AppendResult (α : Type) where
  | ok : List (List α) → AppendResult α
  | indexError : List (List α) → AppendResult α
deriving DecidableEq

/-- The loop
`for i in range(len(self.arrays)): self.arrays[i] = np.concatenate([self.arrays[i], arrays[i]])`,
rendered position by position.  If the supplied arrays run out while store
positions remain, `arrays[i]` raises `IndexError`: the positions before `i`
have already been replaced by their concatenations and the positions from
`i` on are still unchanged.  Supplied arrays beyond the store's length are
never read — the loop bound is the store's length. -/
def appendRun : List (List α) → List (List α) → AppendResult α
  | [], _ => AppendResult.ok []
  | s :: ss, [] => AppendResult.indexError (s :: ss)
  | s :: ss, n :: ns =>
    match appendRun ss ns with
    | AppendResult.ok r => AppendResult.ok ((s ++ n) :: r)
    | AppendResult.indexError r => AppendResult.indexError ((s ++ n) :: r)

/-- `BufferDataSource.appendBuffer`: `if not self.arrays:` take the
supplied arrays as the new store, else run the concatenation loop. -/
def appendBuffer (store new : List (List α)) : AppendResult α :=
  if store.isEmpty then AppendResult.ok new else appendRun store new

/-- C8 counterexample: the claim says a call whose array count mismatches
the store is rejected with the store unchanged.  Supplying *more* arrays
than the store holds is not rejected at all: the call succeeds and the
extra array is silently ignored. -/
theorem appendBuffer_extra_arrays_counterexample :
    appendBuffer [[1]] [[2], [3]] = AppendResult.ok [[1, 2]] ∧
    appendBuffer ([[1]] : List (List Nat)) [[2], [3]]
        ≠ AppendResult.indexError [[1]] := by
  exact ⟨rfl, by decide⟩

theorem appendRun_of_le (store new : List (List α))
    (h : store.length ≤ new.length) :
    appendRun store new = AppendResult.ok (List.zipWith (· ++ ·) store new) := by
  induction store generalizing new with
  | nil => simp [appendRun]
  | cons s ss ih =>
    cases new with
    | nil => simp at h
    | cons n ns =>
      have hle : ss.length ≤ ns.length := by simpa using h
      simp [appendRun, ih ns hle]

theorem appendRun_of_lt (store new : List (List α))
    (h : new.length < store.length) :
    appendRun store new
      = AppendResult.indexError
          (List.zipWith (· ++ ·) store new ++ store.drop new.length) := by
  induction store generalizing new with
  | nil => simp at h
  | cons s ss ih =>
    cases new with
    | nil => simp [appendRun]
    | cons n ns =>
      have hlt : ns.length < ss.length := by simpa using h
      simp [appendRun, ih ns hlt]

/-- C8 (amended): for a non-empty buffering store, `append` performs no
count check.  When at least as many arrays are supplied as exist, the call
succeeds: each existing array is replaced by its concatenation with the
corresponding supplied array, and any extra supplied arrays are silently
ignored.  When fewer arrays are supplied than exist, an `IndexError` is
raised — but only after the first `len(supplied)` store arrays have already
been replaced by their concatenations, so the store is *not* left
unchanged; the remaining arrays keep their old contents. -/
theorem appendBuffer_contract (store new : List (List α)) (hne : store ≠ []) :
    (store.length ≤ new.length →
        appendBuffer store new
          = AppendResult.ok (List.zipWith (· ++ ·) store new)) ∧
    (new.length < store.length →
        appendBuffer store new
          = AppendResult.indexError
              (List.zipWith (· ++ ·) store new ++ store.drop new.length)) := by
  have hemp : store.isEmpty = false := by
    cases store with
    | nil => exact absurd rfl hne
    | cons s ss => rfl
  rw [appendBuffer, hemp]
  exact ⟨appendRun_of_le store new, appendRun_of_lt store new⟩

/-- Witness for C8: matching counts concatenate positionwise; one array
too few raises after the first position was already replaced. -/
theorem appendBuffer_contract_witness :
    appendBuffer [[1], [2]] [[3], [4]] = AppendResult.ok [[1, 3], [2, 4]] ∧
    appendBuffer [[1], [2]] [[3]]
        = AppendResult.indexError [[1, 3], [2]] :=
  ⟨(appendBuffer_contract [[1], [2]] [[3], [4]] (by decide)).1 (by decide),
   (appendBuffer_contract [[1], [2]] [[3]] (by decide)).2 (by decide)⟩

/-! ### Platform gate of the process-pool strategy (C9) -/

/-- Python `str.lower()` on the ASCII names returned by
`platform.system()`: per-character lowercasing. -/
def pyLower (s : String) : String := ⟨s.data.map Char.toLower⟩

/-- The first statement of `DataSource.processBatchGen` (line 151), run at
acquisition time before any buffer, queue or producer thread is created:
`assert platform.system().lower() != windowsName` with the message
`'Generating batches with processes requires fork() semantics not present in Windows.'`
An `error` outcome is the `AssertionError` carrying that message. -/
def processAcquireCheck (systemName : String) : Except String Unit :=
  if pyLower systemName = "windows" then
    Except.error
      "Generating batches with processes requires fork() semantics not present in Windows."
  else Except.ok ()

/-- C9: acquiring the process-pool strategy on Windows (whatever the
capitalisation reported by `platform.system()`) fails immediately with an
assertion whose message names the missing fork semantics, before any
producer loop starts; on every other platform name the check passes and no
such error is raised. -/
theorem process_acquire_platform_check (s : String) :
    (pyLower s = "windows" →
        processAcquireCheck s = Except.error
          "Generating batches with processes requires fork() semantics not present in Windows.") ∧
    (pyLower s ≠ "windows" → processAcquireCheck s = Except.ok ()) := by
  constructor
  · intro h
    rw [processAcquireCheck, if_pos h]
  · intro h
    rw [processAcquireCheck, if_neg h]

/-- Witness for C9: `"Windows"` is rejected with the fork message,
`"Linux"` passes. -/
theorem process_acquire_platform_check_witness :
    processAcquireCheck "Windows" = Except.error
        "Generating batches with processes requires fork() semantics not present in Windows." ∧
    processAcquireCheck "Linux" = Except.ok () :=
  ⟨(process_acquire_platform_check "Windows").1 (by decide),
   (process_acquire_platform_check "Linux").2 (by decide)⟩

end TFSeg
